import Mathlib

/-!
Shallow embedding of the octree / merkle-tree code in `src/main.py`.

Conventions of the embedding:
* Python `float` coordinates are modelled as rationals (`ℚ`); the halving
  `size / 2` is exact in both settings.
* A Python `None` in a child slot (or a `MerkleNode` child slot) is modelled
  by the dedicated constructor `nil` of the node type, so that every
  definition is structurally recursive and kernel-computable.
* `OctreeNode.insert` recurses without any structural bound in the Python
  source (it re-enters itself on the same node after `subdivide`), so it is
  embedded with an explicit fuel argument modelling the call stack: `none`
  means the Python call would not have returned within that call depth.
* `hashlib.sha256` is external to the repository; the hash combinator is
  parameterised by an arbitrary digest function `H : String → String`.
-/

/-- `Point3D` from `src/main.py`: three coordinates and an opaque payload. -/
structure Point3D where
  x : ℚ
  y : ℚ
  z : ℚ
  data : String
deriving DecidableEq, Repr

/-- `MerkleNode` from `src/main.py`: a binary node with optional `left`,
`right` and `data`.  `nil` stands for a Python `None` in a child slot. -/
inductive MerkleNode : Type where
  | nil : MerkleNode
  | node (left right : MerkleNode) (data : Option String) : MerkleNode
deriving DecidableEq, Repr

/-- Python truthiness of the optional `data` string (`if self.data:`):
true exactly for a present, non-empty string. -/
def strTruthy : Option String → Bool
  | none => false
  | some s => s != ""

/-- `MerkleNode.compute_hash`, relative to a digest function `H` (the source
uses `hashlib.sha256(...).hexdigest()`).  A node with truthy `data` hashes the
data; otherwise the node hashes the concatenation of its children's hashes,
where an absent child contributes the empty string
(`left_hash = self.left.hash if self.left else ''`). -/
def MerkleNode.compute_hash (H : String → String) : MerkleNode → String
  | .nil => ""
  | .node l r d =>
    if strTruthy d then H (d.getD "")
    else H (l.compute_hash H ++ r.compute_hash H)

/-- What the script stores in an `OctreeNode.data` field: either a raw
`Point3D` (written by `insert`) or a `(merkle_root, storage_identifier)`
pair (written by the driver loop after insertion). -/
inductive NodeData : Type where
  | pt (p : Point3D) : NodeData
  | merkle (root : MerkleNode) (storageId : String) : NodeData
deriving DecidableEq, Repr

/-- `OctreeNode` from `src/main.py`: position `(x, y, z)`, cubic `size`,
optional `data`, and eight child slots.  `nil` stands for a Python `None`
in a child slot (the root itself is never `nil`). -/
inductive OctreeNode : Type where
  | nil : OctreeNode
  | mk (x y z size : ℚ) (data : Option NodeData)
      (c0 c1 c2 c3 c4 c5 c6 c7 : OctreeNode) : OctreeNode
deriving DecidableEq, Repr

/-- The `x` attribute (`0` is the constructor default; never read on `nil`). -/
def OctreeNode.x : OctreeNode → ℚ
  | .nil => 0
  | .mk x _ _ _ _ _ _ _ _ _ _ _ _ => x

/-- The `y` attribute. -/
def OctreeNode.y : OctreeNode → ℚ
  | .nil => 0
  | .mk _ y _ _ _ _ _ _ _ _ _ _ _ => y

/-- The `z` attribute. -/
def OctreeNode.z : OctreeNode → ℚ
  | .nil => 0
  | .mk _ _ z _ _ _ _ _ _ _ _ _ _ => z

/-- The `size` attribute. -/
def OctreeNode.size : OctreeNode → ℚ
  | .nil => 0
  | .mk _ _ _ size _ _ _ _ _ _ _ _ _ => size

/-- The `data` attribute. -/
def OctreeNode.data : OctreeNode → Option NodeData
  | .nil => none
  | .mk _ _ _ _ d _ _ _ _ _ _ _ _ => d

/-- Whether a child slot holds Python `None`. -/
def OctreeNode.isNil : OctreeNode → Bool
  | .nil => true
  | .mk _ _ _ _ _ _ _ _ _ _ _ _ _ => false

/-- `self.children[i]` (an index outside `0..7` would raise in Python and
never occurs; the embedding returns `nil` there). -/
def OctreeNode.child : OctreeNode → Nat → OctreeNode
  | .nil, _ => .nil
  | .mk _ _ _ _ _ c0 _ _ _ _ _ _ _, 0 => c0
  | .mk _ _ _ _ _ _ c1 _ _ _ _ _ _, 1 => c1
  | .mk _ _ _ _ _ _ _ c2 _ _ _ _ _, 2 => c2
  | .mk _ _ _ _ _ _ _ _ c3 _ _ _ _, 3 => c3
  | .mk _ _ _ _ _ _ _ _ _ c4 _ _ _, 4 => c4
  | .mk _ _ _ _ _ _ _ _ _ _ c5 _ _, 5 => c5
  | .mk _ _ _ _ _ _ _ _ _ _ _ c6 _, 6 => c6
  | .mk _ _ _ _ _ _ _ _ _ _ _ _ c7, 7 => c7
  | .mk _ _ _ _ _ _ _ _ _ _ _ _ _, _ + 8 => .nil

/-- `self.children[i] = c` (no effect outside `0..7`; never occurs). -/
def OctreeNode.setChild : OctreeNode → Nat → OctreeNode → OctreeNode
  | .nil, _, _ => .nil
  | .mk x y z s d _ c1 c2 c3 c4 c5 c6 c7, 0, c => .mk x y z s d c c1 c2 c3 c4 c5 c6 c7
  | .mk x y z s d c0 _ c2 c3 c4 c5 c6 c7, 1, c => .mk x y z s d c0 c c2 c3 c4 c5 c6 c7
  | .mk x y z s d c0 c1 _ c3 c4 c5 c6 c7, 2, c => .mk x y z s d c0 c1 c c3 c4 c5 c6 c7
  | .mk x y z s d c0 c1 c2 _ c4 c5 c6 c7, 3, c => .mk x y z s d c0 c1 c2 c c4 c5 c6 c7
  | .mk x y z s d c0 c1 c2 c3 _ c5 c6 c7, 4, c => .mk x y z s d c0 c1 c2 c3 c c5 c6 c7
  | .mk x y z s d c0 c1 c2 c3 c4 _ c6 c7, 5, c => .mk x y z s d c0 c1 c2 c3 c4 c c6 c7
  | .mk x y z s d c0 c1 c2 c3 c4 c5 _ c7, 6, c => .mk x y z s d c0 c1 c2 c3 c4 c5 c c7
  | .mk x y z s d c0 c1 c2 c3 c4 c5 c6 _, 7, c => .mk x y z s d c0 c1 c2 c3 c4 c5 c6 c
  | n@(.mk _ _ _ _ _ _ _ _ _ _ _ _ _), _ + 8, _ => n

/-- `OctreeNode(x, y, z, size)`: the Python constructor with its defaults —
no data, all eight child slots `None`. -/
def OctreeNode.empty (x y z size : ℚ) : OctreeNode :=
  .mk x y z size none .nil .nil .nil .nil .nil .nil .nil .nil

/-- `is_leaf`: all eight child slots are `None`. -/
def OctreeNode.is_leaf : OctreeNode → Bool
  | .nil => true
  | .mk _ _ _ _ _ c0 c1 c2 c3 c4 c5 c6 c7 =>
    c0.isNil && c1.isNil && c2.isNil && c3.isNil &&
    c4.isNil && c5.isNil && c6.isNil && c7.isNil

/-- `get_child_index`: a 3-bit code over the node's midpoints, one bit per
axis, each set exactly when the coordinate is `>=` the midpoint. -/
def OctreeNode.get_child_index (s : OctreeNode) (p : Point3D) : Nat :=
  (if s.x + s.size / 2 ≤ p.x then 1 else 0) |||
  (if s.y + s.size / 2 ≤ p.y then 2 else 0) |||
  (if s.z + s.size / 2 ≤ p.z then 4 else 0)

/-- The class-level `OFFSETS` table of `OctreeNode` (fractional offsets). -/
def OctreeNode.OFFSETS : List (ℚ × ℚ × ℚ) :=
  [(0, 0, 0), (1/2, 0, 0), (0, 1/2, 0), (1/2, 1/2, 0),
   (0, 0, 1/2), (1/2, 0, 1/2), (0, 1/2, 1/2), (1/2, 1/2, 1/2)]

/-- `subdivide`: overwrite all eight child slots with fresh empty nodes of
half the size, at the offsets listed in the method body. -/
def OctreeNode.subdivide : OctreeNode → OctreeNode
  | .nil => .nil
  | .mk x y z size d _ _ _ _ _ _ _ _ =>
    let h := size / 2
    .mk x y z size d
      (OctreeNode.empty x y z h)
      (OctreeNode.empty (x + h) y z h)
      (OctreeNode.empty x (y + h) z h)
      (OctreeNode.empty (x + h) (y + h) z h)
      (OctreeNode.empty x y (z + h) h)
      (OctreeNode.empty (x + h) y (z + h) h)
      (OctreeNode.empty x (y + h) (z + h) h)
      (OctreeNode.empty (x + h) (y + h) (z + h) h)

/-- `insert`, with an explicit fuel bounding the recursion depth (the Python
method has no such bound; `none` models a call that does not return at that
depth).  Faithful to the source:
* on an empty leaf the point is stored;
* on an occupied leaf the stored point is cleared, the node subdivides, and
  the old point and then the new one are re-inserted into this node
  (storing a non-`Point3D` payload would crash `get_child_index` in Python;
  that branch is modelled as a non-returning call);
* on an internal node the point is routed by `get_child_index`; a missing
  child is created first — at `self.x + ox` with `ox` taken from the
  fractional class-level `OFFSETS`, exactly as line 87 of the source does. -/
def OctreeNode.insert : Nat → OctreeNode → Point3D → Option OctreeNode
  | 0, _, _ => none
  | _ + 1, .nil, _ => none
  | n + 1, s@(.mk x y z size d c0 c1 c2 c3 c4 c5 c6 c7), p =>
    if s.is_leaf then
      match d with
      | none => some (.mk x y z size (some (.pt p)) c0 c1 c2 c3 c4 c5 c6 c7)
      | some (.pt q) =>
        let s0 := (OctreeNode.mk x y z size none c0 c1 c2 c3 c4 c5 c6 c7).subdivide
        match OctreeNode.insert n s0 q with
        | none => none
        | some s1 => OctreeNode.insert n s1 p
      | some (.merkle _ _) => none
    else
      let idx := s.get_child_index p
      match s.child idx with
      | .nil =>
        let off := OctreeNode.OFFSETS.getD idx (0, 0, 0)
        let c := OctreeNode.empty (x + off.1) (y + off.2.1) (z + off.2.2) (size / 2)
        match OctreeNode.insert n c p with
        | none => none
        | some cNew => some (s.setChild idx cNew)
      | c =>
        match OctreeNode.insert n c p with
        | none => none
        | some cNew => some (s.setChild idx cNew)

/-- Inserting a list of points left to right, each with the given fuel
(the driver loop `for point in points: root.insert(point)`). -/
def OctreeNode.insertAll (fuel : Nat) : OctreeNode → List Point3D → Option OctreeNode
  | s, [] => some s
  | s, p :: ps =>
    match OctreeNode.insert fuel s p with
    | none => none
    | some t => OctreeNode.insertAll fuel t ps

/-- The loop condition of `depth_of_point`:
`node.data is None or isinstance(node.data, Point3D)`. -/
def dataWalkable : Option NodeData → Bool
  | none => true
  | some (.pt _) => true
  | some (.merkle _ _) => false

/-- `depth_of_point`: the while loop follows `get_child_index` as long as the
current node exists and its data is `None` or a raw `Point3D`, incrementing
`depth` on every step (the step into an absent child still counts). -/
def OctreeNode.depth_of_point : OctreeNode → Point3D → Nat
  | .nil, _ => 0
  | s@(.mk _ _ _ _ d c0 c1 c2 c3 c4 c5 c6 c7), p =>
    if dataWalkable d then
      (match s.get_child_index p with
       | 0 => c0.depth_of_point p
       | 1 => c1.depth_of_point p
       | 2 => c2.depth_of_point p
       | 3 => c3.depth_of_point p
       | 4 => c4.depth_of_point p
       | 5 => c5.depth_of_point p
       | 6 => c6.depth_of_point p
       | 7 => c7.depth_of_point p
       | _ + 8 => 0) + 1
    else 0

/-- `get_child_index` written with disjoint-bit addition instead of `|||`. -/
theorem OctreeNode.get_child_index_eq (s : OctreeNode) (p : Point3D) :
    s.get_child_index p =
      (if s.x + s.size / 2 ≤ p.x then 1 else 0) +
      (if s.y + s.size / 2 ≤ p.y then 2 else 0) +
      (if s.z + s.size / 2 ≤ p.z then 4 else 0) := by
  unfold OctreeNode.get_child_index
  split <;> split <;> split <;> decide

theorem OctreeNode.get_child_index_lt (s : OctreeNode) (p : Point3D) :
    s.get_child_index p < 8 := by
  unfold OctreeNode.get_child_index
  split <;> split <;> split <;> decide

/-- C6: `get_child_index` computes a 3-bit code over the node's center:
bit 0 is set exactly when `point.x >= mid_x`, bit 1 exactly when
`point.y >= mid_y`, bit 2 exactly when `point.z >= mid_z`.  Because the
comparison is `>=`, a point lying exactly on a midpoint always has the bit
set — it routes to the upper octant, and `get_child_index` is a pure
function, so the routing is identical on every invocation. -/
theorem get_child_index_bits (s : OctreeNode) (p : Point3D) :
    (s.get_child_index p).testBit 0 = decide (s.x + s.size / 2 ≤ p.x) ∧
    (s.get_child_index p).testBit 1 = decide (s.y + s.size / 2 ≤ p.y) ∧
    (s.get_child_index p).testBit 2 = decide (s.z + s.size / 2 ≤ p.z) := by
  unfold OctreeNode.get_child_index
  by_cases hx : s.x + s.size / 2 ≤ p.x <;> by_cases hy : s.y + s.size / 2 ≤ p.y <;>
    by_cases hz : s.z + s.size / 2 ≤ p.z <;>
    simp [hx, hy, hz] <;> decide

/-- Modelled from the spec: the half-open per-axis containment test
(`x1 <= x < x2`, etc.) over the cubic volume a node owns; the source keeps
the volume implicitly as `(x, y, z, size)` and has no contains method. -/
def OctreeNode.contains (s : OctreeNode) (p : Point3D) : Bool :=
  (decide (s.x ≤ p.x) && decide (p.x < s.x + s.size)) &&
  (decide (s.y ≤ p.y) && decide (p.y < s.y + s.size)) &&
  (decide (s.z ≤ p.z) && decide (p.z < s.z + s.size))

/-- C4: for every parent node volume and every point `p` contained in it
(half-open per-axis test), the child volume that `subdivide` creates at
index `get_child_index p` contains `p`. -/
theorem routed_child_contains (s : OctreeNode) (p : Point3D)
    (h : s.contains p = true) :
    (s.subdivide.child (s.get_child_index p)).contains p = true := by
  cases s with
  | nil =>
    simp only [OctreeNode.contains, OctreeNode.x, OctreeNode.size,
      Bool.and_eq_true, decide_eq_true_eq] at h
    exact absurd (lt_of_le_of_lt h.1.1.1 h.1.1.2) (by norm_num)
  | mk x y z sz d c0 c1 c2 c3 c4 c5 c6 c7 =>
    simp only [OctreeNode.contains, OctreeNode.x, OctreeNode.y, OctreeNode.z,
      OctreeNode.size, Bool.and_eq_true, decide_eq_true_eq] at h
    obtain ⟨⟨⟨hx1, hx2⟩, hy1, hy2⟩, hz1, hz2⟩ := h
    rw [OctreeNode.get_child_index_eq]
    simp only [OctreeNode.x, OctreeNode.y, OctreeNode.z, OctreeNode.size]
    by_cases hx : x + sz / 2 ≤ p.x <;> by_cases hy : y + sz / 2 ≤ p.y <;>
      by_cases hz : z + sz / 2 ≤ p.z <;>
      simp only [hx, hy, hz, if_pos, if_neg, not_false_iff, if_true, if_false] <;>
      · norm_num [OctreeNode.subdivide, OctreeNode.child, OctreeNode.empty,
          OctreeNode.contains, OctreeNode.x, OctreeNode.y, OctreeNode.z, OctreeNode.size]
        refine ⟨⟨⟨?_, ?_⟩, ?_, ?_⟩, ?_, ?_⟩ <;> linarith

/-- A leaf currently holding a stored point: the shape `insert` produces
when it stores a point into an empty leaf. -/
def leafHolding (x y z size : ℚ) (p : Point3D) : OctreeNode :=
  .mk x y z size (some (.pt p)) .nil .nil .nil .nil .nil .nil .nil .nil

/-- Every child slot of a freshly subdivided node holds an empty node of
half the parent's size. -/
theorem subdivide_child_empty (x y z sz : ℚ) (d : Option NodeData)
    (c0 c1 c2 c3 c4 c5 c6 c7 : OctreeNode) (i : Nat) (hi : i < 8) :
    ∃ a b c : ℚ,
      (OctreeNode.subdivide (.mk x y z sz d c0 c1 c2 c3 c4 c5 c6 c7)).child i =
        OctreeNode.empty a b c (sz / 2) := by
  interval_cases i <;> exact ⟨_, _, _, rfl⟩

/-- Overwriting a child slot does not change the routing of any point. -/
theorem setChild_get_child_index (s : OctreeNode) (i : Nat) (c : OctreeNode)
    (p : Point3D) :
    (s.setChild i c).get_child_index p = s.get_child_index p := by
  cases s with
  | nil => rfl
  | mk x y z sz d c0 c1 c2 c3 c4 c5 c6 c7 =>
    rcases i with _|_|_|_|_|_|_|_|i <;> rfl

/-- Reading back the slot just written. -/
theorem setChild_child_self (s : OctreeNode) (i : Nat) (c : OctreeNode)
    (hs : s.isNil = false) (hi : i < 8) :
    (s.setChild i c).child i = c := by
  cases s with
  | nil => simp [OctreeNode.isNil] at hs
  | mk x y z sz d c0 c1 c2 c3 c4 c5 c6 c7 =>
    rcases i with _|_|_|_|_|_|_|_|i <;> first | rfl | omega

/-- Writing a non-`None` child into a non-leaf keeps it a non-leaf. -/
theorem setChild_not_leaf (s : OctreeNode) (i : Nat) (c : OctreeNode)
    (hs : s.is_leaf = false) (hc : c.isNil = false) :
    (s.setChild i c).is_leaf = false := by
  cases s with
  | nil => simp [OctreeNode.is_leaf] at hs
  | mk x y z sz d c0 c1 c2 c3 c4 c5 c6 c7 =>
    rcases i with _|_|_|_|_|_|_|_|i <;>
      simp_all [OctreeNode.setChild, OctreeNode.is_leaf, OctreeNode.isNil]

/-- One unfolding of `insert` on a non-leaf node: route, then recurse into
the (possibly freshly created) child. -/
theorem insert_nonleaf_step (n : Nat) (s : OctreeNode) (p : Point3D)
    (hs : s.is_leaf = false) :
    OctreeNode.insert (n + 1) s p =
      match s.child (s.get_child_index p) with
      | .nil =>
        match OctreeNode.insert n
          (OctreeNode.empty
            (s.x + (OctreeNode.OFFSETS.getD (s.get_child_index p) (0, 0, 0)).1)
            (s.y + (OctreeNode.OFFSETS.getD (s.get_child_index p) (0, 0, 0)).2.1)
            (s.z + (OctreeNode.OFFSETS.getD (s.get_child_index p) (0, 0, 0)).2.2)
            (s.size / 2)) p with
        | none => none
        | some cNew => some (s.setChild (s.get_child_index p) cNew)
      | c =>
        match OctreeNode.insert n c p with
        | none => none
        | some cNew => some (s.setChild (s.get_child_index p) cNew) := by
  cases s with
  | nil => simp [OctreeNode.is_leaf] at hs
  | mk x y z sz d c0 c1 c2 c3 c4 c5 c6 c7 =>
    rw [OctreeNode.insert.eq_def]
    simp only [hs, Bool.false_eq_true, if_false]
    rfl

/-- Inserting a point into a leaf that already holds a point with the very
same coordinates never returns, whatever the call-depth budget: each
subdivision routes both points into the same fresh child and the
configuration repeats one level down. -/
theorem insert_self_leaf_diverges (p : Point3D) :
    ∀ (n : Nat) (x y z sz : ℚ),
      OctreeNode.insert n (leafHolding x y z sz p) p = none := by
  intro n
  induction n using Nat.strong_induction_on with
  | _ n ih =>
    intro x y z sz
    rcases n with _|_|m
    · rfl
    · rfl
    · -- fuel m + 2: the outer call subdivides and re-enters itself
      show (match OctreeNode.insert (m + 1)
              (OctreeNode.subdivide (.mk x y z sz none .nil .nil .nil .nil .nil .nil .nil .nil)) p with
            | none => none
            | some s1 => OctreeNode.insert (m + 1) s1 p) = none
      set S := OctreeNode.subdivide (OctreeNode.mk x y z sz none .nil .nil .nil .nil .nil .nil .nil .nil) with hS
      have hSleaf : S.is_leaf = false := by rw [hS]; rfl
      have hSnil : S.isNil = false := by rw [hS]; rfl
      obtain ⟨a, b, c, hc⟩ :=
        subdivide_child_empty x y z sz none .nil .nil .nil .nil .nil .nil .nil .nil
          (S.get_child_index p) (OctreeNode.get_child_index_lt S p)
      rw [← hS] at hc
      rcases m with _|l
      · -- inner budget 1: the child insert runs out of fuel
        rw [insert_nonleaf_step 0 S p hSleaf, hc]
        rfl
      · -- inner budget at least 2: the child insert stores p; the second
        -- outer call then meets the same configuration one level down
        rw [insert_nonleaf_step (l + 1) S p hSleaf, hc]
        show OctreeNode.insert (l + 2)
            (S.setChild (S.get_child_index p) (leafHolding a b c (sz / 2) p)) p = none
        rw [insert_nonleaf_step (l + 1)
          (S.setChild (S.get_child_index p) (leafHolding a b c (sz / 2) p)) p
          (setChild_not_leaf S (S.get_child_index p) (leafHolding a b c (sz / 2) p) hSleaf rfl)]
        rw [setChild_get_child_index S (S.get_child_index p) (leafHolding a b c (sz / 2) p) p]
        rw [setChild_child_self S (S.get_child_index p) (leafHolding a b c (sz / 2) p)
          hSnil (OctreeNode.get_child_index_lt S p)]
        show (match OctreeNode.insert (l + 1) (leafHolding a b c (sz / 2) p) p with
              | none => none
              | some cNew =>
                some ((S.setChild (S.get_child_index p) (leafHolding a b c (sz / 2) p)).setChild
                  (S.get_child_index p) cNew)) = none
        rw [ih (l + 1) (by omega) a b c (sz / 2)]

/-- The first cluster centre of the driver script, used as a concrete
duplicate-coordinate point. -/
def dupPoint : Point3D := ⟨25, 25, 25, "center1"⟩

/-- A second concrete point for the re-insertion scenario. -/
def dupPoint2 : Point3D := ⟨75, 75, 75, "center2"⟩

/-- A point outside the root volume `[0,300)³` of the driver script. -/
def outsidePoint : Point3D := ⟨-5, -5, -5, "stray"⟩

/-- C1: `insert` does not terminate on duplicate coordinates — the code has
no max-depth cap and no Cluster fallback.  Storing `dupPoint` in the empty
root `[0,300)³` gives a leaf holding it; inserting the same coordinates
again returns within no call-depth budget whatsoever. -/
theorem insert_duplicate_never_returns :
    OctreeNode.insert 1 (OctreeNode.empty 0 0 0 300) dupPoint =
        some (leafHolding 0 0 0 300 dupPoint) ∧
    ∀ n : Nat,
      OctreeNode.insert n (leafHolding 0 0 0 300 dupPoint) dupPoint = none :=
  ⟨rfl, fun n => insert_self_leaf_diverges dupPoint n 0 0 0 300⟩

/-- C5: re-inserting an identical point (same coordinates, same payload) is
not detected as a no-op: the second `insert` never returns the unchanged
tree — it never returns at all. -/
theorem reinsert_identical_point_diverges :
    OctreeNode.insert 1 (OctreeNode.empty 0 0 0 300) dupPoint2 =
        some (leafHolding 0 0 0 300 dupPoint2) ∧
    ∀ n : Nat,
      OctreeNode.insert n (leafHolding 0 0 0 300 dupPoint2) dupPoint2 ≠
        some (leafHolding 0 0 0 300 dupPoint2) := by
  refine ⟨rfl, fun n h => ?_⟩
  rw [insert_self_leaf_diverges dupPoint2 n 0 0 0 300] at h
  exact Option.noConfusion h

/-- C3: `insert` performs no bounds check at all: a point outside the root
volume is not rejected with any error — it is stored, mutating the tree. -/
theorem out_of_bounds_insert_accepted :
    OctreeNode.contains (OctreeNode.empty 0 0 0 300) outsidePoint = false ∧
    OctreeNode.insert 1 (OctreeNode.empty 0 0 0 300) outsidePoint =
        some (leafHolding 0 0 0 300 outsidePoint) ∧
    leafHolding 0 0 0 300 outsidePoint ≠ OctreeNode.empty 0 0 0 300 := by
  refine ⟨?_, rfl, ?_⟩
  · norm_num [OctreeNode.contains, OctreeNode.empty, OctreeNode.x, OctreeNode.y,
      OctreeNode.z, OctreeNode.size, outsidePoint]
  · simp [leafHolding, OctreeNode.empty]

/-- A `MerkleNode` leaf with payload `"A"`. -/
def mLeafA : MerkleNode := .node .nil .nil (some "A")

/-- A parent whose only child sits in the left slot. -/
def mLeftOnly : MerkleNode := .node mLeafA .nil none

/-- A structurally different parent whose only child sits in the right slot. -/
def mRightOnly : MerkleNode := .node .nil mLeafA none

/-- C2: an absent child contributes the empty string — not a fixed sentinel —
to `compute_hash`, so two structurally different trees (single child in the
left slot versus in the right slot) hash identically under every digest
function. -/
theorem absent_child_slot_hash_collision :
    ∀ H : String → String,
      MerkleNode.compute_hash H mLeftOnly = MerkleNode.compute_hash H mRightOnly ∧
      mLeftOnly ≠ mRightOnly := by
  intro H
  refine ⟨?_, by decide⟩
  show H (MerkleNode.compute_hash H mLeafA ++ "") =
    H ("" ++ MerkleNode.compute_hash H mLeafA)
  rw [String.append_empty, String.empty_append]

/-- C9: for every point — also points outside the node's own volume —
`get_child_index` returns one of the eight values `0..7`, so indexing the
eight-element children array with it stays in bounds. -/
theorem child_index_always_in_bounds (s : OctreeNode) (p : Point3D) :
    s.get_child_index p < 8 :=
  OctreeNode.get_child_index_lt s p

/-- Witness for C4 at a concrete input: the point `(25, 25, 25)` inside the
volume `[0,300)³` lands in child octant 0, which contains it. -/
theorem routed_child_contains_at_sample :
    OctreeNode.contains (OctreeNode.empty 0 0 0 300) ⟨25, 25, 25, "w"⟩ = true ∧
    ((OctreeNode.empty 0 0 0 300).subdivide.child
        ((OctreeNode.empty 0 0 0 300).get_child_index ⟨25, 25, 25, "w"⟩)).contains
      ⟨25, 25, 25, "w"⟩ = true := by
  have h : OctreeNode.contains (OctreeNode.empty 0 0 0 300) ⟨25, 25, 25, "w"⟩ = true := by
    norm_num [OctreeNode.contains, OctreeNode.empty, OctreeNode.x, OctreeNode.y,
      OctreeNode.z, OctreeNode.size]
  exact ⟨h, routed_child_contains _ _ h⟩

/-- A slot whose `isNil` test is positive holds Python `None`. -/
theorem isNil_eq_nil {c : OctreeNode} (h : c.isNil = true) : c = .nil := by
  cases c with
  | nil => rfl
  | mk x y z sz d c0 c1 c2 c3 c4 c5 c6 c7 => simp [OctreeNode.isNil] at h

/-- The invariant of C7: no node simultaneously has a non-`None` child slot
and stored data — every node is a leaf or carries no data, recursively. -/
def noDual : OctreeNode → Bool
  | .nil => true
  | .mk _ _ _ _ d c0 c1 c2 c3 c4 c5 c6 c7 =>
    ((c0.isNil && c1.isNil && c2.isNil && c3.isNil &&
      c4.isNil && c5.isNil && c6.isNil && c7.isNil) || d.isNone) &&
    noDual c0 && noDual c1 && noDual c2 && noDual c3 &&
    noDual c4 && noDual c5 && noDual c6 && noDual c7

/-- Children of a `noDual` node are `noDual`. -/
theorem noDual_child (s : OctreeNode) (hs : noDual s = true) (i : Nat) :
    noDual (s.child i) = true := by
  cases s with
  | nil => rfl
  | mk x y z sz d c0 c1 c2 c3 c4 c5 c6 c7 =>
    simp only [noDual, Bool.and_eq_true] at hs
    rcases i with _|_|_|_|_|_|_|_|i <;> simp_all [OctreeNode.child, noDual]

/-- Writing a `noDual` child into a non-leaf `noDual` node preserves the
invariant (the node's data slot is already empty). -/
theorem noDual_setChild (s : OctreeNode) (i : Nat) (c : OctreeNode)
    (hs : noDual s = true) (hleaf : s.is_leaf = false) (hc : noDual c = true) :
    noDual (s.setChild i c) = true := by
  cases s with
  | nil => rfl
  | mk x y z sz d c0 c1 c2 c3 c4 c5 c6 c7 =>
    simp only [noDual, Bool.and_eq_true, Bool.or_eq_true] at hs
    have hd : d = none := by
      rcases hs.1.1.1.1.1.1.1.1 with hchain | hd
      · exfalso
        obtain ⟨⟨⟨⟨⟨⟨⟨f0, f1⟩, f2⟩, f3⟩, f4⟩, f5⟩, f6⟩, f7⟩ := hchain
        simp [OctreeNode.is_leaf, f0, f1, f2, f3, f4, f5, f6, f7] at hleaf
      · simpa using hd
    subst hd
    rcases i with _|_|_|_|_|_|_|_|i <;>
      simp_all [noDual, OctreeNode.setChild]

/-- `insert` preserves the C7 invariant whenever it returns. -/
theorem insert_preserves_noDual :
    ∀ (n : Nat) (s : OctreeNode) (p : Point3D) (t : OctreeNode),
      OctreeNode.insert n s p = some t → noDual s = true → noDual t = true := by
  intro n
  induction n with
  | zero => intro s p t h _; exact Option.noConfusion h
  | succ n ih =>
    intro s p t h hs
    cases s with
    | nil => exact Option.noConfusion h
    | mk x y z sz d c0 c1 c2 c3 c4 c5 c6 c7 =>
      cases hl : (OctreeNode.mk x y z sz d c0 c1 c2 c3 c4 c5 c6 c7).is_leaf with
      | true =>
        -- all eight children are None
        have h8 := hl
        simp only [OctreeNode.is_leaf, Bool.and_eq_true] at h8
        obtain ⟨⟨⟨⟨⟨⟨⟨e0, e1⟩, e2⟩, e3⟩, e4⟩, e5⟩, e6⟩, e7⟩ := h8
        obtain rfl := isNil_eq_nil e0
        obtain rfl := isNil_eq_nil e1
        obtain rfl := isNil_eq_nil e2
        obtain rfl := isNil_eq_nil e3
        obtain rfl := isNil_eq_nil e4
        obtain rfl := isNil_eq_nil e5
        obtain rfl := isNil_eq_nil e6
        obtain rfl := isNil_eq_nil e7
        cases d with
        | none =>
          simp only [OctreeNode.insert, OctreeNode.is_leaf, OctreeNode.isNil,
            Bool.and_self, if_true, Option.some.injEq] at h
          subst h
          simp [noDual, OctreeNode.isNil]
        | some nd =>
          cases nd with
          | pt q =>
            simp only [OctreeNode.insert, OctreeNode.is_leaf, OctreeNode.isNil,
              Bool.and_self, if_true] at h
            cases h1 : OctreeNode.insert n
                ((OctreeNode.mk x y z sz none .nil .nil .nil .nil .nil .nil .nil .nil).subdivide) q with
            | none => rw [h1] at h; exact Option.noConfusion h
            | some s1 =>
              rw [h1] at h
              exact ih s1 p t h (ih _ q s1 h1 rfl)
          | merkle m sid =>
            simp only [OctreeNode.insert, OctreeNode.is_leaf, OctreeNode.isNil,
              Bool.and_self, if_true] at h
            exact Option.noConfusion h
      | false =>
        rw [insert_nonleaf_step n _ p hl] at h
        split at h
        · -- lazily created child
          split at h
          · exact Option.noConfusion h
          · rename_i cNew h2
            injection h with h
            subst h
            exact noDual_setChild _ _ _ hs hl (ih _ p cNew h2 rfl)
        · -- existing child: the match keeps the scrutinee in place
          split at h
          · exact Option.noConfusion h
          · rename_i cNew h2
            injection h with h
            subst h
            exact noDual_setChild _ _ _ hs hl (ih _ p cNew h2 (noDual_child _ hs _))

/-- Folding `insert` over a list of points preserves the C7 invariant. -/
theorem insertAll_preserves_noDual (fuel : Nat) :
    ∀ (ps : List Point3D) (s t : OctreeNode),
      OctreeNode.insertAll fuel s ps = some t → noDual s = true → noDual t = true := by
  intro ps
  induction ps with
  | nil =>
    intro s t h hs
    simp only [OctreeNode.insertAll, Option.some.injEq] at h
    exact h ▸ hs
  | cons p ps ih =>
    intro s t h hs
    rw [OctreeNode.insertAll] at h
    split at h
    · exact Option.noConfusion h
    · rename_i s1 h1
      exact ih s1 t h (insert_preserves_noDual fuel s p s1 h1 hs)

/-- C7: after any sequence of inserts starting from an empty root, no node
is simultaneously internal and holding leaf data: whenever a node has a
non-`None` child slot, its `data` field is `None` (`insert` clears the
stored point before calling `subdivide`). -/
theorem no_internal_node_holds_data (fuel : Nat) (x y z sz : ℚ)
    (ps : List Point3D) (t : OctreeNode)
    (h : OctreeNode.insertAll fuel (OctreeNode.empty x y z sz) ps = some t) :
    noDual t = true :=
  insertAll_preserves_noDual fuel ps (OctreeNode.empty x y z sz) t h rfl

/-- Witness for C7 at a concrete input: one insert into the empty root
`[0,300)³`. -/
theorem no_internal_node_holds_data_at_sample :
    noDual (leafHolding 0 0 0 300 dupPoint) = true :=
  no_internal_node_holds_data 1 0 0 0 300 [dupPoint]
    (leafHolding 0 0 0 300 dupPoint) rfl

/-- The invariant of C10: every non-leaf node has all eight child slots
occupied, recursively. -/
def fullOrLeaf : OctreeNode → Bool
  | .nil => true
  | .mk _ _ _ _ _ c0 c1 c2 c3 c4 c5 c6 c7 =>
    ((c0.isNil && c1.isNil && c2.isNil && c3.isNil &&
      c4.isNil && c5.isNil && c6.isNil && c7.isNil) ||
     (!c0.isNil && !c1.isNil && !c2.isNil && !c3.isNil &&
      !c4.isNil && !c5.isNil && !c6.isNil && !c7.isNil)) &&
    fullOrLeaf c0 && fullOrLeaf c1 && fullOrLeaf c2 && fullOrLeaf c3 &&
    fullOrLeaf c4 && fullOrLeaf c5 && fullOrLeaf c6 && fullOrLeaf c7

/-- Children of a `fullOrLeaf` node are `fullOrLeaf`. -/
theorem fullOrLeaf_child (s : OctreeNode) (hs : fullOrLeaf s = true) (i : Nat) :
    fullOrLeaf (s.child i) = true := by
  cases s with
  | nil => rfl
  | mk x y z sz d c0 c1 c2 c3 c4 c5 c6 c7 =>
    simp only [fullOrLeaf, Bool.and_eq_true] at hs
    rcases i with _|_|_|_|_|_|_|_|i <;> simp_all [OctreeNode.child, fullOrLeaf]

/-- In a non-leaf `fullOrLeaf` node every slot `0..7` is occupied. -/
theorem fullOrLeaf_child_ne_nil (s : OctreeNode) (hs : fullOrLeaf s = true)
    (hleaf : s.is_leaf = false) (i : Nat) (hi : i < 8) :
    (s.child i).isNil = false := by
  cases s with
  | nil => simp [OctreeNode.is_leaf] at hleaf
  | mk x y z sz d c0 c1 c2 c3 c4 c5 c6 c7 =>
    simp only [fullOrLeaf, Bool.and_eq_true, Bool.or_eq_true] at hs
    have hocc := hs.1.1.1.1.1.1.1.1
    simp only [OctreeNode.is_leaf] at hleaf
    rcases hocc with hchain | hfull
    · exfalso
      obtain ⟨⟨⟨⟨⟨⟨⟨f0, f1⟩, f2⟩, f3⟩, f4⟩, f5⟩, f6⟩, f7⟩ := hchain
      simp [f0, f1, f2, f3, f4, f5, f6, f7] at hleaf
    · simp only [Bool.and_eq_true, Bool.not_eq_true'] at hfull
      obtain ⟨⟨⟨⟨⟨⟨⟨g0, g1⟩, g2⟩, g3⟩, g4⟩, g5⟩, g6⟩, g7⟩ := hfull
      interval_cases i <;> simp [OctreeNode.child, g0, g1, g2, g3, g4, g5, g6, g7]

/-- After `setChild` with a non-`None` child, the node is still `mk`. -/
theorem setChild_isNil (x y z sz : ℚ) (d : Option NodeData)
    (c0 c1 c2 c3 c4 c5 c6 c7 : OctreeNode) (i : Nat) (c : OctreeNode) :
    ((OctreeNode.mk x y z sz d c0 c1 c2 c3 c4 c5 c6 c7).setChild i c).isNil = false := by
  rcases i with _|_|_|_|_|_|_|_|i <;> rfl

/-- Writing a non-`None` `fullOrLeaf` child into a non-leaf `fullOrLeaf`
node preserves the invariant. -/
theorem fullOrLeaf_setChild (s : OctreeNode) (i : Nat) (c : OctreeNode)
    (hs : fullOrLeaf s = true) (hleaf : s.is_leaf = false)
    (hc : fullOrLeaf c = true) (hcnil : c.isNil = false) :
    fullOrLeaf (s.setChild i c) = true := by
  cases s with
  | nil => rfl
  | mk x y z sz d c0 c1 c2 c3 c4 c5 c6 c7 =>
    simp only [fullOrLeaf, Bool.and_eq_true, Bool.or_eq_true] at hs
    have hocc := hs.1.1.1.1.1.1.1.1
    simp only [OctreeNode.is_leaf] at hleaf
    rcases hocc with hchain | hfull
    · exfalso
      obtain ⟨⟨⟨⟨⟨⟨⟨f0, f1⟩, f2⟩, f3⟩, f4⟩, f5⟩, f6⟩, f7⟩ := hchain
      simp [f0, f1, f2, f3, f4, f5, f6, f7] at hleaf
    · simp only [Bool.not_eq_true'] at hfull
      obtain ⟨⟨⟨⟨⟨⟨⟨g0, g1⟩, g2⟩, g3⟩, g4⟩, g5⟩, g6⟩, g7⟩ := hfull
      rcases i with _|_|_|_|_|_|_|_|i <;>
        simp_all [fullOrLeaf, OctreeNode.setChild]

/-- `insert`, instrumented with a counter of how many times the
lazy-child-creation branch (`if not self.children[idx]:` on a non-leaf
node, lines 85–87 of the source) executes; the tree output is computed
exactly as in `insert` (see `insertCnt_fst`). -/
def OctreeNode.insertCnt : Nat → OctreeNode → Point3D → Option (OctreeNode × Nat)
  | 0, _, _ => none
  | _ + 1, .nil, _ => none
  | n + 1, s@(.mk x y z sz d c0 c1 c2 c3 c4 c5 c6 c7), p =>
    if s.is_leaf then
      match d with
      | none => some (.mk x y z sz (some (.pt p)) c0 c1 c2 c3 c4 c5 c6 c7, 0)
      | some (.pt q) =>
        let s0 := (OctreeNode.mk x y z sz none c0 c1 c2 c3 c4 c5 c6 c7).subdivide
        match OctreeNode.insertCnt n s0 q with
        | none => none
        | some (s1, k1) =>
          match OctreeNode.insertCnt n s1 p with
          | none => none
          | some (t, k2) => some (t, k1 + k2)
      | some (.merkle _ _) => none
    else
      let idx := s.get_child_index p
      match s.child idx with
      | .nil =>
        let off := OctreeNode.OFFSETS.getD idx (0, 0, 0)
        let c := OctreeNode.empty (x + off.1) (y + off.2.1) (z + off.2.2) (sz / 2)
        match OctreeNode.insertCnt n c p with
        | none => none
        | some (cNew, k) => some (s.setChild idx cNew, k + 1)
      | c =>
        match OctreeNode.insertCnt n c p with
        | none => none
        | some (cNew, k) => some (s.setChild idx cNew, k)

/-- One unfolding of `insertCnt` on a non-leaf node. -/
theorem insertCnt_nonleaf_step (n : Nat) (s : OctreeNode) (p : Point3D)
    (hs : s.is_leaf = false) :
    OctreeNode.insertCnt (n + 1) s p =
      match s.child (s.get_child_index p) with
      | .nil =>
        match OctreeNode.insertCnt n
          (OctreeNode.empty
            (s.x + (OctreeNode.OFFSETS.getD (s.get_child_index p) (0, 0, 0)).1)
            (s.y + (OctreeNode.OFFSETS.getD (s.get_child_index p) (0, 0, 0)).2.1)
            (s.z + (OctreeNode.OFFSETS.getD (s.get_child_index p) (0, 0, 0)).2.2)
            (s.size / 2)) p with
        | none => none
        | some (cNew, k) => some (s.setChild (s.get_child_index p) cNew, k + 1)
      | c =>
        match OctreeNode.insertCnt n c p with
        | none => none
        | some (cNew, k) => some (s.setChild (s.get_child_index p) cNew, k) := by
  cases s with
  | nil => simp [OctreeNode.is_leaf] at hs
  | mk x y z sz d c0 c1 c2 c3 c4 c5 c6 c7 =>
    rw [OctreeNode.insertCnt.eq_def]
    simp only [hs, Bool.false_eq_true, if_false]
    rfl

/-- `insert` on a non-leaf node whose routed child slot is occupied. -/
theorem insert_step_child (n : Nat) (s : OctreeNode) (p : Point3D) (c : OctreeNode)
    (hs : s.is_leaf = false) (hch : s.child (s.get_child_index p) = c)
    (hc : c.isNil = false) :
    OctreeNode.insert (n + 1) s p =
      match OctreeNode.insert n c p with
      | none => none
      | some cNew => some (s.setChild (s.get_child_index p) cNew) := by
  rw [insert_nonleaf_step n s p hs, hch]
  cases c with
  | nil => simp [OctreeNode.isNil] at hc
  | mk a1 a2 a3 a4 a5 a6 a7 a8 a9 a10 a11 a12 a13 => rfl

/-- `insert` on a non-leaf node whose routed child slot is `None`: the
child is created lazily (with the fractional-offset coordinates of the
class-level `OFFSETS` table). -/
theorem insert_step_nochild (n : Nat) (s : OctreeNode) (p : Point3D)
    (hs : s.is_leaf = false) (hch : s.child (s.get_child_index p) = .nil) :
    OctreeNode.insert (n + 1) s p =
      match OctreeNode.insert n
        (OctreeNode.empty
          (s.x + (OctreeNode.OFFSETS.getD (s.get_child_index p) (0, 0, 0)).1)
          (s.y + (OctreeNode.OFFSETS.getD (s.get_child_index p) (0, 0, 0)).2.1)
          (s.z + (OctreeNode.OFFSETS.getD (s.get_child_index p) (0, 0, 0)).2.2)
          (s.size / 2)) p with
      | none => none
      | some cNew => some (s.setChild (s.get_child_index p) cNew) := by
  rw [insert_nonleaf_step n s p hs, hch]

/-- `insertCnt` on a non-leaf node whose routed child slot is occupied. -/
theorem insertCnt_step_child (n : Nat) (s : OctreeNode) (p : Point3D) (c : OctreeNode)
    (hs : s.is_leaf = false) (hch : s.child (s.get_child_index p) = c)
    (hc : c.isNil = false) :
    OctreeNode.insertCnt (n + 1) s p =
      match OctreeNode.insertCnt n c p with
      | none => none
      | some (cNew, k) => some (s.setChild (s.get_child_index p) cNew, k) := by
  rw [insertCnt_nonleaf_step n s p hs, hch]
  cases c with
  | nil => simp [OctreeNode.isNil] at hc
  | mk a1 a2 a3 a4 a5 a6 a7 a8 a9 a10 a11 a12 a13 => rfl

/-- `insertCnt` on a non-leaf node whose routed child slot is `None`: this
is the lazy-creation branch, and the counter ticks. -/
theorem insertCnt_step_nochild (n : Nat) (s : OctreeNode) (p : Point3D)
    (hs : s.is_leaf = false) (hch : s.child (s.get_child_index p) = .nil) :
    OctreeNode.insertCnt (n + 1) s p =
      match OctreeNode.insertCnt n
        (OctreeNode.empty
          (s.x + (OctreeNode.OFFSETS.getD (s.get_child_index p) (0, 0, 0)).1)
          (s.y + (OctreeNode.OFFSETS.getD (s.get_child_index p) (0, 0, 0)).2.1)
          (s.z + (OctreeNode.OFFSETS.getD (s.get_child_index p) (0, 0, 0)).2.2)
          (s.size / 2)) p with
      | none => none
      | some (cNew, k) => some (s.setChild (s.get_child_index p) cNew, k + 1) := by
  rw [insertCnt_nonleaf_step n s p hs, hch]

/-- The instrumented insert computes exactly the tree `insert` computes:
it fails precisely when `insert` fails and returns the same tree when it
returns. -/
theorem insertCnt_agrees :
    ∀ (n : Nat) (s : OctreeNode) (p : Point3D),
      (OctreeNode.insertCnt n s p = none → OctreeNode.insert n s p = none) ∧
      ∀ (t : OctreeNode) (k : Nat),
        OctreeNode.insertCnt n s p = some (t, k) → OctreeNode.insert n s p = some t := by
  intro n
  induction n with
  | zero => intro s p; exact ⟨fun _ => rfl, fun t k h => Option.noConfusion h⟩
  | succ n ih =>
    intro s p
    cases s with
    | nil => exact ⟨fun _ => rfl, fun t k h => Option.noConfusion h⟩
    | mk x y z sz d c0 c1 c2 c3 c4 c5 c6 c7 =>
      cases hl : (OctreeNode.mk x y z sz d c0 c1 c2 c3 c4 c5 c6 c7).is_leaf with
      | true =>
        have h8 := hl
        simp only [OctreeNode.is_leaf, Bool.and_eq_true] at h8
        obtain ⟨⟨⟨⟨⟨⟨⟨e0, e1⟩, e2⟩, e3⟩, e4⟩, e5⟩, e6⟩, e7⟩ := h8
        obtain rfl := isNil_eq_nil e0
        obtain rfl := isNil_eq_nil e1
        obtain rfl := isNil_eq_nil e2
        obtain rfl := isNil_eq_nil e3
        obtain rfl := isNil_eq_nil e4
        obtain rfl := isNil_eq_nil e5
        obtain rfl := isNil_eq_nil e6
        obtain rfl := isNil_eq_nil e7
        cases d with
        | none =>
          refine ⟨fun h => ?_, fun t k h => ?_⟩
          · simp only [OctreeNode.insertCnt, OctreeNode.is_leaf, OctreeNode.isNil,
              Bool.and_self, if_true] at h
            exact Option.noConfusion h
          · simp only [OctreeNode.insertCnt, OctreeNode.is_leaf, OctreeNode.isNil,
              Bool.and_self, if_true, Option.some.injEq, Prod.mk.injEq] at h
            rw [← h.1]
            rfl
        | some nd =>
          cases nd with
          | pt q =>
            constructor
            · intro h
              simp only [OctreeNode.insertCnt, OctreeNode.is_leaf, OctreeNode.isNil,
                Bool.and_self, if_true] at h
              simp only [OctreeNode.insert, OctreeNode.is_leaf, OctreeNode.isNil,
                Bool.and_self, if_true]
              split at h
              · rename_i heq
                rw [(ih _ q).1 heq]
              · rename_i s1 k1 heq
                rw [(ih _ q).2 s1 k1 heq]
                split at h
                · rename_i heq2
                  exact (ih s1 p).1 heq2
                · exact Option.noConfusion h
            · intro t k h
              simp only [OctreeNode.insertCnt, OctreeNode.is_leaf, OctreeNode.isNil,
                Bool.and_self, if_true] at h
              simp only [OctreeNode.insert, OctreeNode.is_leaf, OctreeNode.isNil,
                Bool.and_self, if_true]
              split at h
              · exact Option.noConfusion h
              · rename_i s1 k1 heq
                rw [(ih _ q).2 s1 k1 heq]
                split at h
                · exact Option.noConfusion h
                · rename_i t2 k2 heq2
                  injection h with h
                  injection h with h hk
                  subst h
                  exact (ih s1 p).2 t2 k2 heq2
          | merkle m sid =>
            refine ⟨fun h => ?_, fun t k h => ?_⟩
            · rfl
            · simp only [OctreeNode.insertCnt, OctreeNode.is_leaf, OctreeNode.isNil,
                Bool.and_self, if_true] at h
              exact Option.noConfusion h
      | false =>
        cases hch : (OctreeNode.mk x y z sz d c0 c1 c2 c3 c4 c5 c6 c7).child
            ((OctreeNode.mk x y z sz d c0 c1 c2 c3 c4 c5 c6 c7).get_child_index p) with
        | nil =>
          refine ⟨fun h => ?_, fun t k h => ?_⟩ <;>
            rw [insertCnt_step_nochild n _ p hl hch] at h <;>
            rw [insert_step_nochild n _ p hl hch]
          · cases h1 : OctreeNode.insertCnt n
                (OctreeNode.empty
                  ((OctreeNode.mk x y z sz d c0 c1 c2 c3 c4 c5 c6 c7).x +
                    (OctreeNode.OFFSETS.getD
                      ((OctreeNode.mk x y z sz d c0 c1 c2 c3 c4 c5 c6 c7).get_child_index p) (0, 0, 0)).1)
                  ((OctreeNode.mk x y z sz d c0 c1 c2 c3 c4 c5 c6 c7).y +
                    (OctreeNode.OFFSETS.getD
                      ((OctreeNode.mk x y z sz d c0 c1 c2 c3 c4 c5 c6 c7).get_child_index p) (0, 0, 0)).2.1)
                  ((OctreeNode.mk x y z sz d c0 c1 c2 c3 c4 c5 c6 c7).z +
                    (OctreeNode.OFFSETS.getD
                      ((OctreeNode.mk x y z sz d c0 c1 c2 c3 c4 c5 c6 c7).get_child_index p) (0, 0, 0)).2.2)
                  ((OctreeNode.mk x y z sz d c0 c1 c2 c3 c4 c5 c6 c7).size / 2)) p with
            | none => rw [(ih _ p).1 h1]
            | some ck =>
              obtain ⟨cNew, k1⟩ := ck
              rw [h1] at h
              exact Option.noConfusion h
          · cases h1 : OctreeNode.insertCnt n
                (OctreeNode.empty
                  ((OctreeNode.mk x y z sz d c0 c1 c2 c3 c4 c5 c6 c7).x +
                    (OctreeNode.OFFSETS.getD
                      ((OctreeNode.mk x y z sz d c0 c1 c2 c3 c4 c5 c6 c7).get_child_index p) (0, 0, 0)).1)
                  ((OctreeNode.mk x y z sz d c0 c1 c2 c3 c4 c5 c6 c7).y +
                    (OctreeNode.OFFSETS.getD
                      ((OctreeNode.mk x y z sz d c0 c1 c2 c3 c4 c5 c6 c7).get_child_index p) (0, 0, 0)).2.1)
                  ((OctreeNode.mk x y z sz d c0 c1 c2 c3 c4 c5 c6 c7).z +
                    (OctreeNode.OFFSETS.getD
                      ((OctreeNode.mk x y z sz d c0 c1 c2 c3 c4 c5 c6 c7).get_child_index p) (0, 0, 0)).2.2)
                  ((OctreeNode.mk x y z sz d c0 c1 c2 c3 c4 c5 c6 c7).size / 2)) p with
            | none =>
              rw [h1] at h
              exact Option.noConfusion h
            | some ck =>
              obtain ⟨cNew, k1⟩ := ck
              rw [h1] at h
              injection h with h
              injection h with h hk
              subst h
              rw [(ih _ p).2 cNew k1 h1]
        | mk a1 a2 a3 a4 a5 a6 a7 a8 a9 a10 a11 a12 a13 =>
          refine ⟨fun h => ?_, fun t k h => ?_⟩ <;>
            rw [insertCnt_step_child n _ p _ hl hch rfl] at h <;>
            rw [insert_step_child n _ p _ hl hch rfl]
          · cases h1 : OctreeNode.insertCnt n
                (OctreeNode.mk a1 a2 a3 a4 a5 a6 a7 a8 a9 a10 a11 a12 a13) p with
            | none => rw [(ih _ p).1 h1]
            | some ck =>
              obtain ⟨cNew, k1⟩ := ck
              rw [h1] at h
              exact Option.noConfusion h
          · cases h1 : OctreeNode.insertCnt n
                (OctreeNode.mk a1 a2 a3 a4 a5 a6 a7 a8 a9 a10 a11 a12 a13) p with
            | none =>
              rw [h1] at h
              exact Option.noConfusion h
            | some ck =>
              obtain ⟨cNew, k1⟩ := ck
              rw [h1] at h
              injection h with h
              injection h with h hk
              subst h
              rw [(ih _ p).2 cNew k1 h1]

/-- Starting from a `fullOrLeaf` tree, `insertCnt` keeps the invariant,
returns a non-`None` tree, and its lazy-creation counter stays 0: children
only ever appear eight at a time through `subdivide`. -/
theorem insertCnt_preserves_fullOrLeaf :
    ∀ (n : Nat) (s : OctreeNode) (p : Point3D) (t : OctreeNode) (k : Nat),
      OctreeNode.insertCnt n s p = some (t, k) → fullOrLeaf s = true →
      (fullOrLeaf t = true ∧ k = 0) ∧ t.isNil = false := by
  intro n
  induction n with
  | zero => intro s p t k h _; exact Option.noConfusion h
  | succ n ih =>
    intro s p t k h hs
    cases s with
    | nil => exact Option.noConfusion h
    | mk x y z sz d c0 c1 c2 c3 c4 c5 c6 c7 =>
      cases hl : (OctreeNode.mk x y z sz d c0 c1 c2 c3 c4 c5 c6 c7).is_leaf with
      | true =>
        have h8 := hl
        simp only [OctreeNode.is_leaf, Bool.and_eq_true] at h8
        obtain ⟨⟨⟨⟨⟨⟨⟨e0, e1⟩, e2⟩, e3⟩, e4⟩, e5⟩, e6⟩, e7⟩ := h8
        obtain rfl := isNil_eq_nil e0
        obtain rfl := isNil_eq_nil e1
        obtain rfl := isNil_eq_nil e2
        obtain rfl := isNil_eq_nil e3
        obtain rfl := isNil_eq_nil e4
        obtain rfl := isNil_eq_nil e5
        obtain rfl := isNil_eq_nil e6
        obtain rfl := isNil_eq_nil e7
        cases d with
        | none =>
          simp only [OctreeNode.insertCnt, OctreeNode.is_leaf, OctreeNode.isNil,
            Bool.and_self, if_true, Option.some.injEq, Prod.mk.injEq] at h
          obtain ⟨ht, hk⟩ := h
          subst ht
          subst hk
          refine ⟨⟨?_, rfl⟩, rfl⟩
          simp [fullOrLeaf, OctreeNode.isNil]
        | some nd =>
          cases nd with
          | pt q =>
            simp only [OctreeNode.insertCnt, OctreeNode.is_leaf, OctreeNode.isNil,
              Bool.and_self, if_true] at h
            split at h
            · exact Option.noConfusion h
            · rename_i s1 k1 heq
              split at h
              · exact Option.noConfusion h
              · rename_i t2 k2 heq2
                injection h with h
                injection h with ht hk
                subst ht
                subst hk
                have hS0 : fullOrLeaf
                    ((OctreeNode.mk x y z sz none .nil .nil .nil .nil .nil .nil .nil
                      .nil).subdivide) = true := rfl
                have H1 := ih _ q s1 k1 heq hS0
                have H2 := ih s1 p t2 k2 heq2 H1.1.1
                exact ⟨⟨H2.1.1, by omega⟩, H2.2⟩
          | merkle m sid =>
            simp only [OctreeNode.insertCnt, OctreeNode.is_leaf, OctreeNode.isNil,
              Bool.and_self, if_true] at h
            exact Option.noConfusion h
      | false =>
        cases hch : (OctreeNode.mk x y z sz d c0 c1 c2 c3 c4 c5 c6 c7).child
            ((OctreeNode.mk x y z sz d c0 c1 c2 c3 c4 c5 c6 c7).get_child_index p) with
        | nil =>
          exfalso
          have hocc := fullOrLeaf_child_ne_nil _ hs hl
            ((OctreeNode.mk x y z sz d c0 c1 c2 c3 c4 c5 c6 c7).get_child_index p)
            (OctreeNode.get_child_index_lt _ _)
          rw [hch] at hocc
          simp [OctreeNode.isNil] at hocc
        | mk a1 a2 a3 a4 a5 a6 a7 a8 a9 a10 a11 a12 a13 =>
          rw [insertCnt_step_child n _ p _ hl hch rfl] at h
          cases h1 : OctreeNode.insertCnt n
              (OctreeNode.mk a1 a2 a3 a4 a5 a6 a7 a8 a9 a10 a11 a12 a13) p with
          | none =>
            rw [h1] at h
            exact Option.noConfusion h
          | some ck =>
            obtain ⟨cNew, k1⟩ := ck
            rw [h1] at h
            injection h with h
            injection h with ht hk
            subst ht
            subst hk
            have hcfull : fullOrLeaf
                (OctreeNode.mk a1 a2 a3 a4 a5 a6 a7 a8 a9 a10 a11 a12 a13) = true := by
              have := fullOrLeaf_child _ hs
                ((OctreeNode.mk x y z sz d c0 c1 c2 c3 c4 c5 c6 c7).get_child_index p)
              rwa [hch] at this
            have H := ih _ p cNew k1 h1 hcfull
            exact ⟨⟨fullOrLeaf_setChild _ _ _ hs hl H.1.1 H.2, H.1.2⟩,
              setChild_isNil x y z sz d c0 c1 c2 c3 c4 c5 c6 c7 _ cNew⟩

/-- `insertAll`, instrumented: total number of lazy-creation branch
executions over a whole sequence of inserts. -/
def OctreeNode.insertAllCnt (fuel : Nat) : OctreeNode → List Point3D → Option (OctreeNode × Nat)
  | s, [] => some (s, 0)
  | s, p :: ps =>
    match OctreeNode.insertCnt fuel s p with
    | none => none
    | some (t, k) =>
      match OctreeNode.insertAllCnt fuel t ps with
      | none => none
      | some (u, k2) => some (u, k + k2)

/-- Folding the instrumented insert preserves the C10 invariant and keeps
the total lazy-creation count at 0. -/
theorem insertAllCnt_preserves_fullOrLeaf (fuel : Nat) :
    ∀ (ps : List Point3D) (s t : OctreeNode) (k : Nat),
      OctreeNode.insertAllCnt fuel s ps = some (t, k) → fullOrLeaf s = true →
      fullOrLeaf t = true ∧ k = 0 := by
  intro ps
  induction ps with
  | nil =>
    intro s t k h hs
    simp only [OctreeNode.insertAllCnt, Option.some.injEq, Prod.mk.injEq] at h
    obtain ⟨ht, hk⟩ := h
    subst ht
    subst hk
    exact ⟨hs, rfl⟩
  | cons p ps ih =>
    intro s t k h hs
    rw [OctreeNode.insertAllCnt] at h
    split at h
    · exact Option.noConfusion h
    · rename_i s1 k1 heq
      split at h
      · exact Option.noConfusion h
      · rename_i t2 k2 heq2
        injection h with h
        injection h with ht hk
        subst ht
        subst hk
        have H1 := insertCnt_preserves_fullOrLeaf fuel s p s1 k1 heq hs
        have H2 := ih s1 t2 k2 heq2 H1.1.1
        exact ⟨H2.1, by omega⟩

/-- C10: after any sequence of inserts from an empty root, every non-leaf
node has all eight child slots occupied — children only appear through
`subdivide`, which allocates all eight at once — and the branch of `insert`
that lazily creates a missing child of a non-leaf node never executes
(its counter stays 0; `insertCnt_agrees` ties the counter run to `insert`). -/
theorem lazy_child_creation_never_runs (fuel : Nat) (x y z sz : ℚ)
    (ps : List Point3D) (t : OctreeNode) (k : Nat)
    (h : OctreeNode.insertAllCnt fuel (OctreeNode.empty x y z sz) ps = some (t, k)) :
    fullOrLeaf t = true ∧ k = 0 :=
  insertAllCnt_preserves_fullOrLeaf fuel ps (OctreeNode.empty x y z sz) t k h rfl

/-- Witness for C10 at a concrete input: one insert into the empty root
`[0,300)³` stores a leaf, occupies no extra slots, and never runs the
lazy-creation branch. -/
theorem lazy_child_creation_never_runs_at_sample :
    fullOrLeaf (leafHolding 0 0 0 300 dupPoint) = true ∧ 0 = 0 :=
  lazy_child_creation_never_runs 1 0 0 0 300 [dupPoint]
    (leafHolding 0 0 0 300 dupPoint) 0 rfl

/-- Modelled from the spec: "`depthOf(point)`: walks root→leaf via repeated
childIndex; returns edges traversed" — the number of edges from this node
to the leaf holding the point, so 0 when the point is stored directly at
this node.  The source has no such function; this is the spec's yardstick
for `depth_of_point`. -/
def OctreeNode.specDepth : OctreeNode → Point3D → Nat
  | .nil, _ => 0
  | s@(.mk _ _ _ _ d c0 c1 c2 c3 c4 c5 c6 c7), p =>
    if d = some (.pt p) ∧ s.is_leaf = true then 0
    else
      (match s.get_child_index p with
       | 0 => c0.specDepth p
       | 1 => c1.specDepth p
       | 2 => c2.specDepth p
       | 3 => c3.specDepth p
       | 4 => c4.specDepth p
       | 5 => c5.specDepth p
       | 6 => c6.specDepth p
       | 7 => c7.specDepth p
       | _ + 8 => 0) + 1

/-- The routing walk from this node reaches a leaf holding the point as a
raw `Point3D`, and every node on the way lets `depth_of_point` walk on
(data `None` or a raw `Point3D`). -/
def OctreeNode.storedPt : OctreeNode → Point3D → Bool
  | .nil, _ => false
  | s@(.mk _ _ _ _ d c0 c1 c2 c3 c4 c5 c6 c7), p =>
    if dataWalkable d then
      if d = some (.pt p) ∧ s.is_leaf = true then true
      else
        match s.get_child_index p with
        | 0 => c0.storedPt p
        | 1 => c1.storedPt p
        | 2 => c2.storedPt p
        | 3 => c3.storedPt p
        | 4 => c4.storedPt p
        | 5 => c5.storedPt p
        | 6 => c6.storedPt p
        | 7 => c7.storedPt p
        | _ + 8 => false
    else false

/-- On an all-`None`-children leaf the while loop of `depth_of_point` steps
once into the absent routed child and stops: depth 1. -/
theorem depth_of_point_leaf (x y z sz : ℚ) (d : Option NodeData) (p : Point3D)
    (hw : dataWalkable d = true) :
    (OctreeNode.mk x y z sz d .nil .nil .nil .nil .nil .nil .nil
      .nil).depth_of_point p = 1 := by
  rw [OctreeNode.depth_of_point, if_pos hw]
  have h8 := OctreeNode.get_child_index_lt
    (OctreeNode.mk x y z sz d .nil .nil .nil .nil .nil .nil .nil .nil) p
  revert h8
  generalize (OctreeNode.mk x y z sz d .nil .nil .nil .nil .nil .nil .nil
    .nil).get_child_index p = i
  intro h8
  interval_cases i <;> rfl

/-- C8 (amended): for every point stored in the tree (as a raw `Point3D`
at the leaf the routing walk reaches), `depth_of_point` returns one MORE
than the number of edges on the root-to-leaf path: the while-loop condition
treats a `Point3D`-holding leaf as walkable, steps into its absent routed
child, and counts that extra step.  A point stored directly at the root
therefore yields 1, not 0. -/
theorem depth_is_specDepth_succ :
    ∀ (s : OctreeNode) (p : Point3D),
      s.storedPt p = true → s.depth_of_point p = s.specDepth p + 1 := by
  intro s
  induction s with
  | nil => intro p h; exact Bool.noConfusion h
  | mk x y z sz d c0 c1 c2 c3 c4 c5 c6 c7 ih0 ih1 ih2 ih3 ih4 ih5 ih6 ih7 =>
    intro p h
    rw [OctreeNode.storedPt] at h
    by_cases hw : dataWalkable d = true
    · rw [if_pos hw] at h
      by_cases hstop : d = some (.pt p) ∧
          (OctreeNode.mk x y z sz d c0 c1 c2 c3 c4 c5 c6 c7).is_leaf = true
      · -- the point is held right here, at a leaf
        obtain ⟨hd, hleaf⟩ := hstop
        have h8 := hleaf
        simp only [OctreeNode.is_leaf, Bool.and_eq_true] at h8
        obtain ⟨⟨⟨⟨⟨⟨⟨e0, e1⟩, e2⟩, e3⟩, e4⟩, e5⟩, e6⟩, e7⟩ := h8
        obtain rfl := isNil_eq_nil e0
        obtain rfl := isNil_eq_nil e1
        obtain rfl := isNil_eq_nil e2
        obtain rfl := isNil_eq_nil e3
        obtain rfl := isNil_eq_nil e4
        obtain rfl := isNil_eq_nil e5
        obtain rfl := isNil_eq_nil e6
        obtain rfl := isNil_eq_nil e7
        rw [depth_of_point_leaf x y z sz d p hw, OctreeNode.specDepth,
          if_pos ⟨hd, rfl⟩]
      · -- the walk continues into the routed child
        rw [if_neg hstop] at h
        rw [OctreeNode.depth_of_point, if_pos hw, OctreeNode.specDepth,
          if_neg hstop]
        have h8 := OctreeNode.get_child_index_lt
          (OctreeNode.mk x y z sz d c0 c1 c2 c3 c4 c5 c6 c7) p
        revert h h8
        generalize (OctreeNode.mk x y z sz d c0 c1 c2 c3 c4 c5 c6
          c7).get_child_index p = i
        intro h h8
        interval_cases i
        · exact congrArg (· + 1) (ih0 p h)
        · exact congrArg (· + 1) (ih1 p h)
        · exact congrArg (· + 1) (ih2 p h)
        · exact congrArg (· + 1) (ih3 p h)
        · exact congrArg (· + 1) (ih4 p h)
        · exact congrArg (· + 1) (ih5 p h)
        · exact congrArg (· + 1) (ih6 p h)
        · exact congrArg (· + 1) (ih7 p h)
    · rw [if_neg hw] at h
      exact Bool.noConfusion h

/-- A concrete point for the depth scenario. -/
def depthPoint : Point3D := ⟨10, 20, 30, "r"⟩

/-- C8 counterexample: a point stored directly at the root (one insert into
the empty root) has `depth_of_point` equal to 1 — not 0, as a
count of edges traversed on the root-to-leaf path would give. -/
theorem depth_of_root_stored_point_is_one :
    OctreeNode.insert 1 (OctreeNode.empty 0 0 0 300) depthPoint =
        some (leafHolding 0 0 0 300 depthPoint) ∧
    (leafHolding 0 0 0 300 depthPoint).depth_of_point depthPoint = 1 ∧
    (leafHolding 0 0 0 300 depthPoint).depth_of_point depthPoint ≠ 0 := by
  refine ⟨rfl, ?_, ?_⟩ <;> rw [show leafHolding 0 0 0 300 depthPoint =
      OctreeNode.mk 0 0 0 300 (some (.pt depthPoint)) .nil .nil .nil .nil .nil
        .nil .nil .nil from rfl, depth_of_point_leaf 0 0 0 300
      (some (.pt depthPoint)) depthPoint rfl]
  exact one_ne_zero

/-- Witness for the amended C8 at a concrete input: the point stored at the
root leaf has walk depth 1 = 0 + 1. -/
theorem depth_is_specDepth_succ_at_sample :
    (leafHolding 0 0 0 300 depthPoint).storedPt depthPoint = true ∧
    (leafHolding 0 0 0 300 depthPoint).depth_of_point depthPoint =
      (leafHolding 0 0 0 300 depthPoint).specDepth depthPoint + 1 := by
  have h : (leafHolding 0 0 0 300 depthPoint).storedPt depthPoint = true := by
    rw [show leafHolding 0 0 0 300 depthPoint =
      OctreeNode.mk 0 0 0 300 (some (.pt depthPoint)) .nil .nil .nil .nil .nil
        .nil .nil .nil from rfl, OctreeNode.storedPt]
    simp [dataWalkable, OctreeNode.is_leaf, OctreeNode.isNil]
  exact ⟨h, depth_is_specDepth_succ (leafHolding 0 0 0 300 depthPoint) depthPoint h⟩
